import Mathlib

/-!
Verification of the g-redis ziplist codec and database engine.

The definitions below are a shallow embedding of the Go sources:
* package `ziplist` (ZipList, NewZipList, Push, Index, encode,
  encodingPrevLen, maybeInt, the header accessors), and
* package `database` (DB.Exists, DB.Remove, DB.Flush, DB.IsExpiredV1,
  CommandContext and its accessors).

Byte buffers are `List Nat` whose elements are byte values; machine
integer conversions are made explicit (`% 256`, `% 2^16`, `% 2^32`,
Euclidean `/` and `%` on `Int`, which agree with Go's arithmetic shift
and `byte(...)` truncation for the divisors used here).  Fallible
operations return `Except`/`Option`; a Go runtime panic (out-of-range
slice access) is modelled by an explicit `panic`-labelled outcome.
-/

/-- Decimal digits (ASCII codes) of a natural number, with explicit fuel so
that the definition is structurally recursive and kernel-reducible. -/
def natDecAux : Nat → Nat → List Nat
  | 0, _ => []
  | fuel + 1, n => if n < 10 then [48 + n] else natDecAux fuel (n / 10) ++ [48 + n % 10]

/-- ASCII decimal representation of a natural number (as `fmt.Sprintf` with
verb `d` produces for unsigned values). -/
def natDecimal (n : Nat) : List Nat := natDecAux (n + 1) n

/-- ASCII decimal representation of an integer (as `fmt.Sprintf` with verb
`d` produces for signed values): a leading `-` (byte 45) for negatives. -/
def intDecimal (v : Int) : List Nat :=
  if v < 0 then 45 :: natDecimal (-v).toNat else natDecimal v.toNat

/-- Is the byte an ASCII decimal digit? -/
def isDigit (c : Nat) : Bool := if 48 ≤ c ∧ c ≤ 57 then true else false

/-- Value of a nonempty all-digit byte string; `none` if empty or any byte is
not a digit (the syntax check of `strconv.Atoi`). -/
def digitsVal (ds : List Nat) : Option Nat :=
  if ds.isEmpty then none
  else ds.foldl (fun acc c => acc.bind (fun a => if isDigit c then some (a * 10 + (c - 48)) else none))
    (some 0)

/-- Embedding of `strconv.Atoi(string(data))` as used by `ZipList.maybeInt`:
an optional `+`/`-` sign, one or more decimal digits, and a range check
against the 64-bit `int` type (out of range is an error). -/
def maybeInt (data : List Nat) : Option Int :=
  let sd : Bool × List Nat :=
    match data with
    | 45 :: rest => (true, rest)
    | 43 :: rest => (false, rest)
    | _ => (false, data)
  match digitsVal sd.2 with
  | none => none
  | some m =>
    let v : Int := if sd.1 then -(m : Int) else (m : Int)
    if -9223372036854775808 ≤ v ∧ v ≤ 9223372036854775807 then some v else none

/-- Go's `byte(v)` conversion of a 64-bit integer: the low 8 bits. -/
def goByte (v : Int) : Nat := (v % 256).toNat

/-- Two's-complement reading of an `w`-bit pattern (the value of a Go signed
integer whose bit pattern is `n`). -/
def toSigned (w : Nat) (n : Nat) : Int :=
  if n < 2 ^ (w - 1) then (n : Int) else (n : Int) - 2 ^ w

/-- Little-endian 4-byte encoding (`binary.LittleEndian.PutUint32`). -/
def u32le (n : Nat) : List Nat := [n % 256, n / 256 % 256, n / 65536 % 256, n / 16777216 % 256]

/-- Little-endian 2-byte encoding (`binary.LittleEndian.PutUint16`). -/
def u16le (n : Nat) : List Nat := [n % 256, n / 256 % 256]

/-- Little-endian 4-byte read (`binary.LittleEndian.Uint32`). -/
def readU32 (l : List Nat) (off : Nat) : Nat :=
  l.getD off 0 + l.getD (off + 1) 0 * 256 + l.getD (off + 2) 0 * 65536 +
    l.getD (off + 3) 0 * 16777216

/-- Little-endian 2-byte read (`binary.LittleEndian.Uint16`). -/
def readU16 (l : List Nat) (off : Nat) : Nat := l.getD off 0 + l.getD (off + 1) 0 * 256

/-- Overwrite `vs.length` bytes of `l` starting at offset `off` (the effect of
the `PutUintNN` calls on a slice of the buffer). -/
def setBytesAt (l : List Nat) (off : Nat) (vs : List Nat) : List Nat :=
  l.take off ++ vs ++ l.drop (off + vs.length)

/-- The ziplist: a single contiguous byte buffer (`zl.buff`). -/
structure ZipList where
  buff : List Nat
deriving DecidableEq

/-- Result of `ZipList.Index`, covering all four Go outcomes: a returned
byte slice, the `ErrorOutOfRange` error, the `(nil, nil)` no-entry/no-error
return, and a runtime panic from an out-of-range slice access. -/
inductive IdxOut where
  | ok (bs : List Nat)
  | errOutOfRange
  | noEntry
  | panic
deriving DecidableEq

namespace ZipList

/-- Header accessor `zlBytes` (u32 little-endian at offset 0). -/
def zlBytes (zl : ZipList) : Nat := readU32 zl.buff 0

/-- Header accessor `zlTail` (u32 little-endian at offset 4). -/
def zlTail (zl : ZipList) : Nat := readU32 zl.buff 4

/-- Header accessor `zlLen` (u16 little-endian at offset 8). -/
def zlLen (zl : ZipList) : Nat := readU16 zl.buff 8

/-- Header setter `setZlBytes`. -/
def setZlBytes (zl : ZipList) (size : Nat) : ZipList := ⟨setBytesAt zl.buff 0 (u32le size)⟩

/-- Header setter `setZlTail`. -/
def setZlTail (zl : ZipList) (tail : Nat) : ZipList := ⟨setBytesAt zl.buff 4 (u32le tail)⟩

/-- Header setter `setZlLen`. -/
def setZlLen (zl : ZipList) (len : Nat) : ZipList := ⟨setBytesAt zl.buff 8 (u16le len)⟩

/-- `Len()` returns the `zllen` header field. -/
def Len (zl : ZipList) : Nat := zl.zlLen

/-- `encodingPrevLen`: one byte if the previous entry length is below 254,
otherwise the marker byte 254 followed by a little-endian u32. -/
def encodingPrevLen (prevLen : Int) : List Nat :=
  if prevLen < 254 then [goByte prevLen]
  else 254 :: u32le ((prevLen % 4294967296).toNat)

/-- `ZipList.encode`: the previous-entry length bytes followed by either an
integer encoding (when the input parses as a decimal 64-bit integer) or a
length-prefixed byte-string encoding; `tooLarge` for byte strings longer
than `2^32 - 1`. -/
def encode (prevLen : Int) (data : List Nat) : Except Unit (List Nat) :=
  let pl := encodingPrevLen prevLen
  match maybeInt data with
  | some value =>
    if -128 ≤ value ∧ value ≤ 127 then
      if 0 ≤ value ∧ value ≤ 12 then .ok (pl ++ [240 ||| goByte value])
      else .ok (pl ++ [254, goByte value])
    else if -32768 ≤ value ∧ value ≤ 32767 then
      .ok (pl ++ [192, goByte (value / 256), goByte value])
    else if -8388608 ≤ value ∧ value ≤ 8388607 then
      .ok (pl ++ [240, goByte (value / 65536), goByte (value / 256), goByte value])
    else if -2147483648 ≤ value ∧ value ≤ 2147483647 then
      .ok (pl ++ [208, goByte (value / 16777216), goByte (value / 65536),
        goByte (value / 256), goByte value])
    else if -9223372036854775808 ≤ value ∧ value ≤ 9223372036854775807 then
      .ok (pl ++ [224, goByte (value / 72057594037927936), goByte (value / 281474976710656),
        goByte (value / 1099511627776), goByte (value / 4294967296), goByte (value / 16777216),
        goByte (value / 65536), goByte (value / 256), goByte value])
    else .ok pl
  | none =>
    if data.length < 63 then .ok (pl ++ [0 ||| data.length] ++ data)
    else if data.length ≤ 16383 then
      .ok (pl ++ [((data.length >>> 8) &&& 255) ||| 64, data.length &&& 255] ++ data)
    else if data.length ≤ 4294967295 then
      .ok (pl ++ [128 ||| ((data.length >>> 32) &&& 255), (data.length >>> 24) &&& 255,
        (data.length >>> 16) &&& 255, (data.length >>> 8) &&& 255, data.length &&& 255] ++ data)
    else .error ()

/-- `ZipList.Push`: compute the previous-entry length from the header,
encode the entry, splice it in before a fresh terminator, and update the
three header fields (`zlbytes`, `zltail`, `zllen`) exactly as the source
does (including the u32/u16 truncations of the Go conversions). -/
def Push (zl : ZipList) (data : List Nat) : Except Unit ZipList :=
  let oldZlBytes := zl.zlBytes
  let oldZlTail := zl.zlTail
  let prevLen : Int := (oldZlBytes : Int) - (oldZlTail : Int) - 1
  match encode prevLen data with
  | .error e => .error e
  | .ok entry =>
    let zl1 : ZipList := ⟨zl.buff.take (zl.buff.length - 1) ++ entry ++ [255]⟩
    let zl2 := zl1.setZlBytes (zl1.buff.length % 4294967296)
    let zl3 := zl2.setZlTail ((((oldZlBytes : Int) - 1) % 4294967296).toNat)
    let zl4 := zl3.setZlLen ((zl3.zlLen + 1) % 65536)
    .ok zl4

/-- One arm of the `Index` scan after the previous-length bytes have been
consumed: reads the encoding byte and either decodes the current entry (the
`i == index` case, first component) or skips it (second component).  An
`Except.error` is a panic that occurs in both modes (reads the source
performs before testing `i == index`). -/
def indexAfterPrev (rem1 : List Nat) : Except IdxOut (IdxOut × List Nat) :=
  match rem1[0]? with
  | none => .error .panic
  | some reqLen =>
    if reqLen >>> 4 = 0 then
      let L := reqLen &&& 63
      let rem2 := rem1.drop 1
      .ok (if L ≤ rem2.length then .ok (rem2.take L) else .panic, rem2.drop L)
    else if reqLen = 254 then
      let rem2 := rem1.drop 1
      .ok (match rem2[0]? with
           | some b => .ok (natDecimal b)
           | none => .panic,
           rem2.drop 1)
    else if reqLen >>> 4 = 15 ∧ (reqLen <<< 4) % 256 ≠ 0 then
      .ok (.ok (natDecimal (reqLen &&& 15)), rem1.drop 1)
    else if reqLen = 192 then
      let rem2 := rem1.drop 1
      .ok (match rem2[0]?, rem2[1]? with
           | some b0, some b1 => .ok (intDecimal (toSigned 16 ((b0 <<< 8 ||| b1) % 65536)))
           | _, _ => .panic,
           rem2.drop 2)
    else if reqLen = 240 then
      let rem2 := rem1.drop 1
      .ok (match rem2[0]?, rem2[1]?, rem2[2]? with
           | some b0, some b1, some b2 =>
             .ok (intDecimal
               (if (b0 <<< 16 ||| b1 <<< 8 ||| b2) &&& 8388608 ≠ 0 then
                  ((b0 <<< 16 ||| b1 <<< 8 ||| b2 : Nat) : Int) - 16777216
                else ((b0 <<< 16 ||| b1 <<< 8 ||| b2 : Nat) : Int)))
           | _, _, _ => .panic,
           rem2.drop 3)
    else if reqLen = 208 then
      let rem2 := rem1.drop 1
      .ok (match rem2[0]?, rem2[1]?, rem2[2]?, rem2[3]? with
           | some b0, some b1, some b2, some b3 =>
             .ok (intDecimal (toSigned 32
               ((b0 <<< 24 ||| b1 <<< 16 ||| b2 <<< 8 ||| b3) % 4294967296)))
           | _, _, _, _ => .panic,
           rem2.drop 4)
    else if reqLen = 224 then
      let rem2 := rem1.drop 1
      .ok (match rem2[0]?, rem2[1]?, rem2[2]?, rem2[3]?, rem2[4]?, rem2[5]?, rem2[6]?, rem2[7]? with
           | some b0, some b1, some b2, some b3, some b4, some b5, some b6, some b7 =>
             .ok (intDecimal (toSigned 64
               ((b0 <<< 56 ||| b1 <<< 48 ||| b2 <<< 40 ||| b3 <<< 32 ||| b4 <<< 24 |||
                 b5 <<< 16 ||| b6 <<< 8 ||| b7) % 18446744073709551616)))
           | _, _, _, _, _, _, _, _ => .panic,
           rem2.drop 8)
    else if reqLen >>> 6 = 1 then
      match rem1[1]? with
      | none => .error .panic
      | some lo =>
        let L := ((reqLen &&& 63) <<< 8) ||| lo
        let rem2 := rem1.drop 2
        .ok (if L ≤ rem2.length then .ok (rem2.take L) else .panic, rem2.drop L)
    else if reqLen >>> 7 = 1 then
      match rem1[1]?, rem1[2]?, rem1[3]?, rem1[4]? with
      | some b1, some b2, some b3, some b4 =>
        let L := ((reqLen &&& 127) <<< 32) ||| (b1 <<< 24) ||| (b2 <<< 16) ||| (b3 <<< 8) ||| b4
        let rem2 := rem1.drop 5
        .ok (if L ≤ rem2.length then .ok (rem2.take L) else .panic, rem2.drop L)
      | _, _, _, _ => .error .panic
    else
      .ok (.noEntry, rem1)

/-- One full iteration of the `Index` scan loop: consume the previous-length
bytes (1 byte, or 5 when the marker 254/255 is present and the 4-byte read
is in bounds, else just the marker) and process the encoding byte. -/
def indexStep (rem : List Nat) : Except IdxOut (IdxOut × List Nat) :=
  match rem[0]? with
  | none => .error .panic
  | some p0 =>
    if p0 = 0 ∨ p0 < 254 then indexAfterPrev (rem.drop 1)
    else if 4 < (rem.drop 1).length then indexAfterPrev (rem.drop 5)
    else indexAfterPrev (rem.drop 1)

/-- The `Index` scan loop (`for i := 0; i <= index; i++`), with `k` the
number of entries still to skip before the target. -/
def indexLoop (rem : List Nat) (k : Nat) : IdxOut :=
  match indexStep rem with
  | .error r => r
  | .ok tn =>
    match k with
    | 0 => tn.1
    | k2 + 1 => indexLoop tn.2 k2

/-- `ZipList.Index`: bounds check against the `zllen` header, then a linear
scan from offset 10. -/
def Index (zl : ZipList) (index : Int) : IdxOut :=
  if index < 0 ∨ (zl.zlLen : Int) ≤ index then .errOutOfRange
  else indexLoop (zl.buff.drop 10) index.toNat

end ZipList

/-- `NewZipList`: an 11-byte buffer with `zlbytes = 11`, `zltail = 10`,
`zllen = 0` and the terminator byte 255 at offset 10. -/
def NewZipList : ZipList :=
  let zl0 : ZipList := ⟨List.replicate 11 0⟩
  let zl1 := zl0.setZlBytes 11
  let zl2 := zl1.setZlTail 10
  let zl3 := zl2.setZlLen 0
  ⟨setBytesAt zl3.buff 10 [255]⟩

/-- A `Push` call as used in a client-driven sequence: on error the ziplist
is unchanged (the source returns before mutating the buffer). -/
def pushStep (zl : ZipList) (data : List Nat) : ZipList :=
  match zl.Push data with
  | .ok zl2 => zl2
  | .error _ => zl

/-- The ziplist reached from `NewZipList` by a sequence of `Push` calls. -/
def buildZL (inputs : List (List Nat)) : ZipList := inputs.foldl pushStep NewZipList

/-! ### Database engine (package `database`)

The keyed dictionary (`dict.Dict`) and the TTL index (`ttl.Cache`) live in
packages outside the provided sources; they are modelled from the spec
(§4.2, §4.3) as association lists.  `DB.Exists`, `DB.Remove`, `DB.Flush`
and `DB.IsExpiredV1` are translated from `database.go`.  The ambient clock
(`time.Now()`) is passed explicitly as `now`. -/

/-- Opaque stand-in for `*DataEntity` (the claims never inspect the value). -/
abbrev Entity := Nat

/-- Modelled from the spec: dictionary `Get(key)` returns the value and a
presence flag; here an association list lookup. -/
def dictGet (d : List (String × Entity)) (k : String) : Option Entity :=
  (d.find? (fun p => p.1 == k)).map (fun p => p.2)

/-- Modelled from the spec: dictionary `Remove(key)` returns 1 if the key was
removed and 0 otherwise, together with the updated dictionary. -/
def dictRemove (d : List (String × Entity)) (k : String) : Int × List (String × Entity) :=
  if (dictGet d k).isSome then (1, d.filter (fun p => !(p.1 == k))) else (0, d)

/-- Modelled from the spec: dictionary `Len()`. -/
def dictLen (d : List (String × Entity)) : Nat := d.length

/-- Modelled from the spec: TTL index `IsExpired(key)` returns
`(now ≥ deadline, exists)`, and `(false, false)` when the key has no
deadline. -/
def ttlIsExpired (c : List (String × Int)) (now : Int) (k : String) : Bool × Bool :=
  match c.find? (fun p => p.1 == k) with
  | none => (false, false)
  | some p => (decide (p.2 ≤ now), true)

/-- Modelled from the spec: TTL index `Remove(key)`. -/
def ttlRemove (c : List (String × Int)) (k : String) : List (String × Int) :=
  c.filter (fun p => !(p.1 == k))

/-- A database: the keyed dictionary `data` and the TTL index `ttlCache`
(the `index`, `server` and `AddAof` fields play no role in the claims). -/
structure DB where
  data : List (String × Entity)
  ttlCache : List (String × Int)
deriving DecidableEq

namespace DB

/-- `DB.Exists`: count, over the given keys, those present in the dictionary
(the source consults only `db.data.Get`). -/
def Exists (db : DB) (keys : List String) : Int :=
  keys.foldl (fun result key => if (dictGet db.data key).isSome then result + 1 else result) 0

/-- `DB.Remove`: remove from the dictionary, and only when that removed
something (`result > 0`) also remove from the TTL index. -/
def Remove (db : DB) (key : String) : Int × DB :=
  let r := dictRemove db.data key
  if 0 < r.1 then (r.1, ⟨r.2, ttlRemove db.ttlCache key⟩) else (r.1, ⟨r.2, db.ttlCache⟩)

/-- `DB.Flush`: clear both structures, but only when the dictionary is
nonempty (`length > 0`). -/
def Flush (db : DB) : DB :=
  if 0 < dictLen db.data then ⟨[], []⟩ else db

/-- `DB.IsExpiredV1` delegates to the TTL index. -/
def IsExpiredV1 (db : DB) (now : Int) (key : String) : Bool × Bool :=
  ttlIsExpired db.ttlCache now key

end DB

/-! ### Command context (`database.CommandContext`) -/

/-- ASCII fragment of `strings.ToLower` (sufficient for the byte strings the
claims touch). -/
def toLowerByte (c : Nat) : Nat := if 65 ≤ c ∧ c ≤ 90 then c + 32 else c

/-- The pooled per-request context; `cmdName` is a byte string (`""` is
`[]`), `args = none` models the Go `nil` slice, and the `db`/`conn`
pointers are omitted (no claim touches them). -/
structure CommandContext where
  cmdName : List Nat
  cmdLine : List (List Nat)
  args : Option (List (List Nat))
deriving DecidableEq

namespace CommandContext

/-- `CommandContext.Reset` zeroes every field. -/
def Reset (_ : CommandContext) : CommandContext := ⟨[], [], none⟩

/-- `CommandContext.GetCmdName`: lazily compute the lowercased first word of
`cmdLine`; with an empty `cmdLine` the empty name is returned unchanged.
(The source also caches the computed name in the struct; the cached and the
returned value coincide, and the claims only inspect the returned value.) -/
def GetCmdName (c : CommandContext) : List Nat :=
  if c.cmdName = [] then
    match c.cmdLine with
    | w :: _ => w.map toLowerByte
    | [] => c.cmdName
  else c.cmdName

/-- `CommandContext.GetArgs`: when `args` is nil, slice `cmdLine[1:]`.  On a
nil/empty `cmdLine` (capacity 0, as after `Reset`) the Go slice expression
panics; that outcome is `none`. -/
def GetArgs (c : CommandContext) : Option (List (List Nat)) :=
  match c.args with
  | some a => some a
  | none =>
    match c.cmdLine with
    | [] => none
    | _ :: t => some t

/-- `CommandContext.GetArgNum` is the length of `GetArgs`, propagating the
panic. -/
def GetArgNum (c : CommandContext) : Option Nat := c.GetArgs.map List.length

end CommandContext

/-! ### Spec-side definitions used to state the claims -/

/-- Inputs whose ziplist entry the `Index` scan walks over and decodes
without derailing: integers other than 0 (whose embedded encoding byte
0xF0 collides with the int24 tag), and byte strings whose length the
decoder understands (at most 15, or in the two multi-byte length forms). -/
def skipGoodB (b : List Nat) : Bool :=
  match maybeInt b with
  | some v => v != 0
  | none =>
    decide (b.length ≤ 15) || (decide (63 ≤ b.length) && decide (b.length ≤ 4294967295))

/-- Inputs whose entry additionally decodes back to the round-trip value:
`skipGoodB` minus the int8-encoded negatives (decoded unsigned by the
source). -/
def roundGoodB (b : List Nat) : Bool :=
  match maybeInt b with
  | some v => v != 0 && !(decide (-128 ≤ v) && decide (v ≤ -1))
  | none =>
    decide (b.length ≤ 15) || (decide (63 ≤ b.length) && decide (b.length ≤ 4294967295))

/-- What the `Index` scan actually returns for an entry pushed from `b`
(the decoded payload): integer entries print their decoded value (int8
entries print the raw byte, unsigned); byte-string entries are returned
verbatim. -/
def decodePayload (b : List Nat) : List Nat :=
  match maybeInt b with
  | some v => if -128 ≤ v ∧ v ≤ -1 then natDecimal (goByte v) else intDecimal v
  | none => b

/-- The round-trip output the spec claims: the canonical decimal ASCII of
`n` for integer inputs, the input verbatim otherwise. -/
def roundOut (b : List Nat) : List Nat :=
  match maybeInt b with
  | some v => intDecimal v
  | none => b

/-- Modelled from the spec: the count `Exists` is claimed to return — the
number of the given keys present after lazy expiration, an expired key
contributing 0. -/
def specLiveCount (db : DB) (now : Int) (keys : List String) : Int :=
  keys.foldl
    (fun result key =>
      if (dictGet db.data key).isSome && !(ttlIsExpired db.ttlCache now key).1 then result + 1
      else result)
    0

/-- Byte offset of the start (the prevlen byte) of the last entry when the
entry blocks are laid out from offset 10; offset of the terminator when
there are none. -/
def tailOffset (blocks : List (List Nat)) : Nat := 10 + blocks.dropLast.flatten.length

/-- Layout invariant tying a ziplist buffer to its list of entry blocks:
the three header fields hold the buffer length, the tail offset and the
(wrapped) entry count; the entry blocks sit between header and terminator;
and every block is an `encode` output whose input satisfies `P`. -/
def ZLayout (zl : ZipList) (blocks : List (List Nat)) (P : List Nat → Prop) : Prop :=
  zl.buff = u32le zl.buff.length ++ u32le (tailOffset blocks) ++
      u16le (blocks.length % 65536) ++ (blocks.flatten ++ [255]) ∧
    zl.buff.length ≤ 4294967295 ∧
    ∀ bl ∈ blocks, ∃ p data, 0 ≤ p ∧ ZipList.encode p data = .ok bl ∧ P data

/-! ### Arithmetic toolkit -/

theorem and15 (x : Nat) : x &&& 15 = x % 16 := by
  have h := Nat.and_pow_two_sub_one_eq_mod x 4
  norm_num at h
  exact h

theorem and63 (x : Nat) : x &&& 63 = x % 64 := by
  have h := Nat.and_pow_two_sub_one_eq_mod x 6
  norm_num at h
  exact h

theorem and127 (x : Nat) : x &&& 127 = x % 128 := by
  have h := Nat.and_pow_two_sub_one_eq_mod x 7
  norm_num at h
  exact h

theorem and255 (x : Nat) : x &&& 255 = x % 256 := by
  have h := Nat.and_pow_two_sub_one_eq_mod x 8
  norm_num at h
  exact h

theorem or_disj_add {a b : Nat} (k : Nat) (ha : 2 ^ k ∣ a) (hb : b < 2 ^ k) :
    a ||| b = a + b := by
  obtain ⟨c, rfl⟩ := ha
  exact (Nat.mul_add_lt_is_or hb c).symm

theorem shr_div (x k : Nat) : x >>> k = x / 2 ^ k := Nat.shiftRight_eq_div_pow x k

theorem shl_mul (x k : Nat) : x <<< k = x * 2 ^ k := Nat.shiftLeft_eq x k

theorem goByte_lt (v : Int) : goByte v < 256 := by
  unfold goByte
  omega

/-! ### The scan consumes the prevlen bytes of a well-formed entry -/

theorem indexStep_entry_prevlen (p : Int) (hp : 0 ≤ p) (r2 : List Nat) (hr : r2 ≠ []) :
    ZipList.indexStep (ZipList.encodingPrevLen p ++ r2) = ZipList.indexAfterPrev r2 := by
  have hlen : 0 < r2.length := List.length_pos.mpr hr
  unfold ZipList.encodingPrevLen
  by_cases h : p < 254
  · have hlt : goByte p < 254 := by unfold goByte; omega
    simp [ZipList.indexStep, List.singleton_append, h,
      show goByte p = 0 ∨ goByte p < 254 from Or.inr hlt]
  · rw [if_neg h]
    unfold ZipList.indexStep
    simp only [u32le, List.cons_append, List.getElem?_cons_zero]
    rw [if_neg (by omega : ¬(254 = 0 ∨ 254 < 254))]
    rw [if_pos (by simp; omega)]
    simp

/-! ### Decoding each well-formed entry body -/

theorem afterPrev_strShort (data rest : List Nat) (h : data.length ≤ 15) :
    ZipList.indexAfterPrev (data.length :: (data ++ rest)) = .ok (.ok data, rest) := by
  have h1 : data.length >>> 4 = 0 := by rw [shr_div]; omega
  have h2 : data.length &&& 63 = data.length := by rw [and63]; omega
  have h3 : data.length ≤ (data ++ rest).length := by simp
  unfold ZipList.indexAfterPrev
  simp [h1, h2, h3]

theorem afterPrev_int8 (b : Nat) (rest : List Nat) :
    ZipList.indexAfterPrev (254 :: b :: rest) = .ok (.ok (natDecimal b), rest) := by
  unfold ZipList.indexAfterPrev
  simp only [List.getElem?_cons_zero]
  rw [if_neg (by decide)]
  simp

theorem afterPrev_embed (v : Int) (h1 : 1 ≤ v) (h2 : v ≤ 12) (rest : List Nat) :
    ZipList.indexAfterPrev ((240 ||| goByte v) :: rest) =
      .ok (.ok (natDecimal v.toNat), rest) := by
  have hb : goByte v = v.toNat := by unfold goByte; omega
  have hv : v.toNat < 16 := by omega
  have he : 240 ||| goByte v = 240 + v.toNat := by
    rw [hb]
    exact or_disj_add 4 (by norm_num) (by omega)
  have c1 : ¬((240 + v.toNat) >>> 4 = 0) := by rw [shr_div]; omega
  have c2 : (240 + v.toNat) ≠ 254 := by omega
  have c3 : (240 + v.toNat) >>> 4 = 15 := by rw [shr_div]; omega
  have c4 : ((240 + v.toNat) <<< 4) % 256 ≠ 0 := by rw [shl_mul]; omega
  have c5 : (240 + v.toNat) &&& 15 = v.toNat := by rw [and15]; omega
  unfold ZipList.indexAfterPrev
  rw [he]
  simp [c1, c2, c3, c4, c5]

theorem byte_or_shl (x y k : Nat) (hy : y < 2 ^ k) : x <<< k ||| y = x * 2 ^ k + y := by
  rw [shl_mul]
  exact or_disj_add k (dvd_mul_left (2 ^ k) x) hy

theorem decode16 (v : Int) (h1 : -32768 ≤ v) (h2 : v ≤ 32767) :
    toSigned 16 ((goByte (v / 256) <<< 8 ||| goByte v) % 65536) = v := by
  have hb1 := goByte_lt v
  rw [byte_or_shl _ _ _ (by omega : goByte v < 2 ^ 8)]
  unfold toSigned goByte
  norm_num
  split <;> omega

theorem afterPrev_int16 (v : Int) (h1 : -32768 ≤ v) (h2 : v ≤ 32767) (rest : List Nat) :
    ZipList.indexAfterPrev (192 :: goByte (v / 256) :: goByte v :: rest) =
      .ok (.ok (intDecimal v), rest) := by
  unfold ZipList.indexAfterPrev
  simp only [List.getElem?_cons_zero]
  rw [if_neg (by decide), if_neg (by decide), if_neg (by decide)]
  simp only [if_pos rfl, List.drop_succ_cons, List.drop_zero, List.getElem?_cons_zero,
    List.getElem?_cons_succ]
  rw [decode16 v h1 h2]
  simp [List.drop]

theorem and_bit23 (d : Nat) : d &&& 8388608 = if d / 8388608 % 2 = 1 then 8388608 else 0 := by
  have h := Nat.and_two_pow d 23
  rw [Nat.testBit_to_div_mod] at h
  norm_num at h
  by_cases hd : d / 8388608 % 2 = 1 <;> simp [hd] at h ⊢ <;> omega

theorem decode24 (v : Int) (h1 : -8388608 ≤ v) (h2 : v ≤ 8388607) :
    (if (goByte (v / 65536) <<< 16 ||| goByte (v / 256) <<< 8 ||| goByte v) &&& 8388608 ≠ 0 then
        ((goByte (v / 65536) <<< 16 ||| goByte (v / 256) <<< 8 ||| goByte v : Nat) : Int) - 16777216
      else ((goByte (v / 65536) <<< 16 ||| goByte (v / 256) <<< 8 ||| goByte v : Nat) : Int)) =
      v := by
  have hb0 := goByte_lt (v / 65536)
  have hb1 := goByte_lt (v / 256)
  have hb2 := goByte_lt v
  rw [Nat.or_assoc, byte_or_shl _ _ 8 (by omega), byte_or_shl _ _ 16 (by
    have := shl_mul (goByte (v / 256)) 8
    omega)]
  rw [and_bit23]
  unfold goByte at *
  by_cases hC :
      ((v / 65536 % 256).toNat * 2 ^ 16 + ((v / 256 % 256).toNat * 2 ^ 8 + (v % 256).toNat)) /
        8388608 % 2 = 1
  · rw [if_pos hC, if_pos (by norm_num : ((8388608 : Nat) ≠ 0))]
    omega
  · rw [if_neg hC, if_neg (by norm_num : ¬((0 : Nat) ≠ 0))]
    omega

theorem afterPrev_int24 (v : Int) (h1 : -8388608 ≤ v) (h2 : v ≤ 8388607) (rest : List Nat) :
    ZipList.indexAfterPrev (240 :: goByte (v / 65536) :: goByte (v / 256) :: goByte v :: rest) =
      .ok (.ok (intDecimal v), rest) := by
  unfold ZipList.indexAfterPrev
  simp only [List.getElem?_cons_zero]
  rw [if_neg (by decide), if_neg (by decide), if_neg (by decide), if_neg (by decide)]
  simp only [if_pos rfl, List.drop_succ_cons, List.drop_zero, List.getElem?_cons_zero,
    List.getElem?_cons_succ]
  rw [decode24 v h1 h2]
  simp [List.drop]

theorem decode32 (v : Int) (h1 : -2147483648 ≤ v) (h2 : v ≤ 2147483647) :
    toSigned 32
      ((goByte (v / 16777216) <<< 24 ||| goByte (v / 65536) <<< 16 |||
          goByte (v / 256) <<< 8 ||| goByte v) % 4294967296) = v := by
  have hb0 := goByte_lt (v / 16777216)
  have hb1 := goByte_lt (v / 65536)
  have hb2 := goByte_lt (v / 256)
  have hb3 := goByte_lt v
  simp only [Nat.or_assoc]
  rw [byte_or_shl _ _ 8 (by omega)]
  rw [byte_or_shl _ _ 16 (by
    have := shl_mul (goByte (v / 256)) 8
    omega)]
  rw [byte_or_shl _ _ 24 (by
    have := shl_mul (goByte (v / 65536)) 16
    have := shl_mul (goByte (v / 256)) 8
    omega)]
  unfold toSigned goByte at *
  norm_num
  split <;> omega

theorem afterPrev_int32 (v : Int) (h1 : -2147483648 ≤ v) (h2 : v ≤ 2147483647) (rest : List Nat) :
    ZipList.indexAfterPrev (208 :: goByte (v / 16777216) :: goByte (v / 65536) ::
        goByte (v / 256) :: goByte v :: rest) =
      .ok (.ok (intDecimal v), rest) := by
  unfold ZipList.indexAfterPrev
  simp only [List.getElem?_cons_zero]
  rw [if_neg (by decide), if_neg (by decide), if_neg (by decide), if_neg (by decide),
    if_neg (by decide)]
  simp only [if_pos rfl, List.drop_succ_cons, List.drop_zero, List.getElem?_cons_zero,
    List.getElem?_cons_succ]
  rw [decode32 v h1 h2]
  simp [List.drop]

set_option maxHeartbeats 1000000 in
theorem decode64 (v : Int) (h1 : -9223372036854775808 ≤ v) (h2 : v ≤ 9223372036854775807) :
    toSigned 64
      ((goByte (v / 72057594037927936) <<< 56 ||| goByte (v / 281474976710656) <<< 48 |||
          goByte (v / 1099511627776) <<< 40 ||| goByte (v / 4294967296) <<< 32 |||
          goByte (v / 16777216) <<< 24 ||| goByte (v / 65536) <<< 16 |||
          goByte (v / 256) <<< 8 ||| goByte v) % 18446744073709551616) = v := by
  have hb0 := goByte_lt (v / 72057594037927936)
  have hb1 := goByte_lt (v / 281474976710656)
  have hb2 := goByte_lt (v / 1099511627776)
  have hb3 := goByte_lt (v / 4294967296)
  have hb4 := goByte_lt (v / 16777216)
  have hb5 := goByte_lt (v / 65536)
  have hb6 := goByte_lt (v / 256)
  have hb7 := goByte_lt v
  have e8 : goByte (v / 256) <<< 8 ||| goByte v = goByte (v / 256) * 2 ^ 8 + goByte v :=
    byte_or_shl _ _ 8 (by omega)
  have e16 : goByte (v / 65536) <<< 16 ||| (goByte (v / 256) * 2 ^ 8 + goByte v) =
      goByte (v / 65536) * 2 ^ 16 + (goByte (v / 256) * 2 ^ 8 + goByte v) :=
    byte_or_shl _ _ 16 (by omega)
  have e24 : goByte (v / 16777216) <<< 24 |||
        (goByte (v / 65536) * 2 ^ 16 + (goByte (v / 256) * 2 ^ 8 + goByte v)) =
      goByte (v / 16777216) * 2 ^ 24 +
        (goByte (v / 65536) * 2 ^ 16 + (goByte (v / 256) * 2 ^ 8 + goByte v)) :=
    byte_or_shl _ _ 24 (by omega)
  have e32 : goByte (v / 4294967296) <<< 32 |||
        (goByte (v / 16777216) * 2 ^ 24 +
          (goByte (v / 65536) * 2 ^ 16 + (goByte (v / 256) * 2 ^ 8 + goByte v))) =
      goByte (v / 4294967296) * 2 ^ 32 +
        (goByte (v / 16777216) * 2 ^ 24 +
          (goByte (v / 65536) * 2 ^ 16 + (goByte (v / 256) * 2 ^ 8 + goByte v))) :=
    byte_or_shl _ _ 32 (by omega)
  have e40 : goByte (v / 1099511627776) <<< 40 |||
        (goByte (v / 4294967296) * 2 ^ 32 +
          (goByte (v / 16777216) * 2 ^ 24 +
            (goByte (v / 65536) * 2 ^ 16 + (goByte (v / 256) * 2 ^ 8 + goByte v)))) =
      goByte (v / 1099511627776) * 2 ^ 40 +
        (goByte (v / 4294967296) * 2 ^ 32 +
          (goByte (v / 16777216) * 2 ^ 24 +
            (goByte (v / 65536) * 2 ^ 16 + (goByte (v / 256) * 2 ^ 8 + goByte v)))) :=
    byte_or_shl _ _ 40 (by omega)
  have e48 : goByte (v / 281474976710656) <<< 48 |||
        (goByte (v / 1099511627776) * 2 ^ 40 +
          (goByte (v / 4294967296) * 2 ^ 32 +
            (goByte (v / 16777216) * 2 ^ 24 +
              (goByte (v / 65536) * 2 ^ 16 + (goByte (v / 256) * 2 ^ 8 + goByte v))))) =
      goByte (v / 281474976710656) * 2 ^ 48 +
        (goByte (v / 1099511627776) * 2 ^ 40 +
          (goByte (v / 4294967296) * 2 ^ 32 +
            (goByte (v / 16777216) * 2 ^ 24 +
              (goByte (v / 65536) * 2 ^ 16 + (goByte (v / 256) * 2 ^ 8 + goByte v))))) :=
    byte_or_shl _ _ 48 (by omega)
  have e56 : goByte (v / 72057594037927936) <<< 56 |||
        (goByte (v / 281474976710656) * 2 ^ 48 +
          (goByte (v / 1099511627776) * 2 ^ 40 +
            (goByte (v / 4294967296) * 2 ^ 32 +
              (goByte (v / 16777216) * 2 ^ 24 +
                (goByte (v / 65536) * 2 ^ 16 + (goByte (v / 256) * 2 ^ 8 + goByte v)))))) =
      goByte (v / 72057594037927936) * 2 ^ 56 +
        (goByte (v / 281474976710656) * 2 ^ 48 +
          (goByte (v / 1099511627776) * 2 ^ 40 +
            (goByte (v / 4294967296) * 2 ^ 32 +
              (goByte (v / 16777216) * 2 ^ 24 +
                (goByte (v / 65536) * 2 ^ 16 + (goByte (v / 256) * 2 ^ 8 + goByte v)))))) :=
    byte_or_shl _ _ 56 (by omega)
  simp only [Nat.or_assoc]
  rw [e8, e16, e24, e32, e40, e48, e56]
  unfold toSigned goByte
  have s1 : (v / 256 % 256).toNat * 2 ^ 8 + (v % 256).toNat = (v % 65536).toNat := by omega
  have s2 : (v / 65536 % 256).toNat * 2 ^ 16 + (v % 65536).toNat = (v % 16777216).toNat := by
    omega
  have s3 : (v / 16777216 % 256).toNat * 2 ^ 24 + (v % 16777216).toNat =
      (v % 4294967296).toNat := by omega
  have s4 : (v / 4294967296 % 256).toNat * 2 ^ 32 + (v % 4294967296).toNat =
      (v % 1099511627776).toNat := by omega
  have s5 : (v / 1099511627776 % 256).toNat * 2 ^ 40 + (v % 1099511627776).toNat =
      (v % 281474976710656).toNat := by omega
  have s6 : (v / 281474976710656 % 256).toNat * 2 ^ 48 + (v % 281474976710656).toNat =
      (v % 72057594037927936).toNat := by omega
  have s7 : (v / 72057594037927936 % 256).toNat * 2 ^ 56 + (v % 72057594037927936).toNat =
      (v % 18446744073709551616).toNat := by omega
  rw [s1, s2, s3, s4, s5, s6, s7]
  have hm : (v % 18446744073709551616).toNat % 18446744073709551616 =
      (v % 18446744073709551616).toNat := by omega
  rw [hm]
  norm_num
  split <;> omega

theorem afterPrev_int64 (v : Int) (h1 : -9223372036854775808 ≤ v)
    (h2 : v ≤ 9223372036854775807) (rest : List Nat) :
    ZipList.indexAfterPrev (224 :: goByte (v / 72057594037927936) ::
        goByte (v / 281474976710656) :: goByte (v / 1099511627776) :: goByte (v / 4294967296) ::
        goByte (v / 16777216) :: goByte (v / 65536) :: goByte (v / 256) :: goByte v :: rest) =
      .ok (.ok (intDecimal v), rest) := by
  unfold ZipList.indexAfterPrev
  simp only [List.getElem?_cons_zero]
  rw [if_neg (by decide), if_neg (by decide), if_neg (by decide), if_neg (by decide),
    if_neg (by decide), if_neg (by decide)]
  simp only [if_pos rfl, if_true, List.drop_succ_cons, List.drop_zero, List.getElem?_cons_zero,
    List.getElem?_cons_succ]
  rw [decode64 v h1 h2]

theorem afterPrev_str14 (data rest : List Nat) (h2 : data.length ≤ 16383) :
    ZipList.indexAfterPrev ((((data.length >>> 8) &&& 255) ||| 64) ::
        (data.length &&& 255) :: (data ++ rest)) = .ok (.ok data, rest) := by
  have e0 : (data.length >>> 8) &&& 255 = data.length / 256 := by
    rw [shr_div, and255]
    norm_num
    omega
  have e1 : ((data.length >>> 8) &&& 255) ||| 64 = 64 + data.length / 256 := by
    rw [e0, Nat.or_comm]
    exact or_disj_add 6 (by norm_num) (by omega)
  have e2 : data.length &&& 255 = data.length % 256 := and255 _
  have c1 : ¬((64 + data.length / 256) >>> 4 = 0) := by rw [shr_div]; norm_num; omega
  have c2 : (64 + data.length / 256) ≠ 254 := by omega
  have c3 : ¬((64 + data.length / 256) >>> 4 = 15 ∧
      ((64 + data.length / 256) <<< 4) % 256 ≠ 0) := by
    intro hc
    have h15 := hc.1
    rw [shr_div] at h15
    norm_num at h15
    omega
  have c4 : (64 + data.length / 256) ≠ 192 := by omega
  have c5 : (64 + data.length / 256) ≠ 240 := by omega
  have c6 : (64 + data.length / 256) ≠ 208 := by omega
  have c7 : (64 + data.length / 256) ≠ 224 := by omega
  have c8 : (64 + data.length / 256) >>> 6 = 1 := by rw [shr_div]; norm_num; omega
  have e3 : (64 + data.length / 256) &&& 63 = data.length / 256 := by rw [and63]; omega
  have e4 : (data.length / 256) <<< 8 ||| data.length % 256 = data.length := by
    rw [byte_or_shl _ _ 8 (by omega)]
    norm_num
    omega
  rw [e1, e2]
  unfold ZipList.indexAfterPrev
  simp only [List.getElem?_cons_zero, List.getElem?_cons_succ]
  rw [if_neg c1, if_neg c2, if_neg c3, if_neg c4, if_neg c5, if_neg c6, if_neg c7, if_pos c8]
  rw [e3, e4]
  simp

theorem afterPrev_str5 (data rest : List Nat) (h2 : data.length ≤ 4294967295) :
    ZipList.indexAfterPrev ((128 ||| ((data.length >>> 32) &&& 255)) ::
        ((data.length >>> 24) &&& 255) :: ((data.length >>> 16) &&& 255) ::
        ((data.length >>> 8) &&& 255) :: (data.length &&& 255) :: (data ++ rest)) =
      .ok (.ok data, rest) := by
  have e0 : 128 ||| ((data.length >>> 32) &&& 255) = 128 := by
    have h1 : (data.length >>> 32) &&& 255 = 0 := by
      rw [shr_div, and255]
      norm_num
      omega
    rw [h1]
    decide
  have f24 : (data.length >>> 24) &&& 255 = data.length / 16777216 % 256 := by
    rw [shr_div, and255]
    norm_num
  have f16 : (data.length >>> 16) &&& 255 = data.length / 65536 % 256 := by
    rw [shr_div, and255]
    norm_num
  have f8 : (data.length >>> 8) &&& 255 = data.length / 256 % 256 := by
    rw [shr_div, and255]
    norm_num
  have f0 : data.length &&& 255 = data.length % 256 := and255 _
  have eL : (0 : Nat) <<< 32 ||| (data.length / 16777216 % 256) <<< 24 |||
      (data.length / 65536 % 256) <<< 16 ||| (data.length / 256 % 256) <<< 8 |||
      data.length % 256 = data.length := by
    simp only [Nat.or_assoc, Nat.zero_shiftLeft, Nat.zero_or]
    rw [byte_or_shl _ _ 8 (by omega)]
    rw [byte_or_shl _ _ 16 (by
      have := shl_mul (data.length / 256 % 256) 8
      omega)]
    rw [byte_or_shl _ _ 24 (by
      have := shl_mul (data.length / 65536 % 256) 16
      have := shl_mul (data.length / 256 % 256) 8
      omega)]
    norm_num
    omega
  rw [e0, f24, f16, f8, f0]
  unfold ZipList.indexAfterPrev
  simp only [List.getElem?_cons_zero, List.getElem?_cons_succ]
  rw [if_neg (by decide), if_neg (by decide), if_neg (by decide), if_neg (by decide),
    if_neg (by decide), if_neg (by decide), if_neg (by decide), if_neg (by decide),
    if_pos (by decide)]
  rw [show (128 : Nat) &&& 127 = 0 from rfl, eL]
  simp

theorem maybeInt_range (data : List Nat) (v : Int) (h : maybeInt data = some v) :
    -9223372036854775808 ≤ v ∧ v ≤ 9223372036854775807 := by
  unfold maybeInt at h
  generalize (match data with
    | 45 :: rest => (true, rest)
    | 43 :: rest => (false, rest)
    | _ => (false, data)) = sd at h
  rcases hdv : digitsVal sd.2 with _ | m <;> simp only [hdv] at h
  · exact absurd h (by simp)
  · split at h <;> split at h <;>
      first
        | (rename_i hrange
           injection h with h2
           exact h2 ▸ hrange)
        | exact absurd h (by simp)

theorem indexStep_entry (p : Int) (hp : 0 ≤ p) (data entry rest : List Nat)
    (henc : ZipList.encode p data = .ok entry) (hsk : skipGoodB data = true) :
    ZipList.indexStep (entry ++ rest) = .ok (.ok (decodePayload data), rest) := by
  simp only [ZipList.encode] at henc
  cases hm : maybeInt data with
  | some v =>
    have hrange := maybeInt_range data v hm
    simp only [hm] at henc
    simp only [skipGoodB, hm, bne_iff_ne, decide_eq_true_eq] at hsk
    simp only [decodePayload, hm]
    split_ifs at henc with h1 h2 h3 h4 h5
    · -- embedded small integer
      injection henc with he
      subst he
      simp only [List.append_assoc, List.cons_append, List.nil_append]
      rw [indexStep_entry_prevlen p hp _ (by simp)]
      rw [afterPrev_embed v (by omega) (by omega) rest]
      rw [if_neg (by omega), intDecimal, if_neg (by omega)]
    · -- int8
      injection henc with he
      subst he
      simp only [List.append_assoc, List.cons_append, List.nil_append]
      rw [indexStep_entry_prevlen p hp _ (by simp)]
      rw [afterPrev_int8 (goByte v) rest]
      by_cases hneg : -128 ≤ v ∧ v ≤ -1
      · rw [if_pos hneg]
      · rw [if_neg hneg, intDecimal, if_neg (by omega)]
        have hb : goByte v = v.toNat := by unfold goByte; omega
        rw [hb]
    · -- int16
      injection henc with he
      subst he
      simp only [List.append_assoc, List.cons_append, List.nil_append]
      rw [indexStep_entry_prevlen p hp _ (by simp)]
      rw [afterPrev_int16 v (by omega) (by omega) rest]
      rw [if_neg (by omega)]
    · -- int24
      injection henc with he
      subst he
      simp only [List.append_assoc, List.cons_append, List.nil_append]
      rw [indexStep_entry_prevlen p hp _ (by simp)]
      rw [afterPrev_int24 v (by omega) (by omega) rest]
      rw [if_neg (by omega)]
    · -- int32
      injection henc with he
      subst he
      simp only [List.append_assoc, List.cons_append, List.nil_append]
      rw [indexStep_entry_prevlen p hp _ (by simp)]
      rw [afterPrev_int32 v (by omega) (by omega) rest]
      rw [if_neg (by omega)]
    · -- int64
      injection henc with he
      subst he
      simp only [List.append_assoc, List.cons_append, List.nil_append]
      rw [indexStep_entry_prevlen p hp _ (by simp)]
      rw [afterPrev_int64 v (by omega) (by omega) rest]
      rw [if_neg (by omega)]
  | none =>
    simp only [hm] at henc
    simp only [skipGoodB, hm, Bool.or_eq_true, Bool.and_eq_true, decide_eq_true_eq] at hsk
    simp only [decodePayload, hm]
    split_ifs at henc with h1 h2 h3
    · -- one-byte length: decodable only for length ≤ 15
      have hlen : data.length ≤ 15 := by
        rcases hsk with h | ⟨h63, _⟩
        · exact h
        · omega
      injection henc with he
      subst he
      simp only [Nat.zero_or, List.append_assoc, List.cons_append, List.nil_append]
      rw [indexStep_entry_prevlen p hp _ (by simp)]
      exact afterPrev_strShort data rest hlen
    · -- two-byte length
      injection henc with he
      subst he
      simp only [List.append_assoc, List.cons_append, List.nil_append]
      rw [indexStep_entry_prevlen p hp _ (by simp)]
      exact afterPrev_str14 data rest h2
    · -- five-byte length
      injection henc with he
      subst he
      simp only [List.append_assoc, List.cons_append, List.nil_append]
      rw [indexStep_entry_prevlen p hp _ (by simp)]
      exact afterPrev_str5 data rest h3

/-- A block list whose every block is an encoded scan-decodable entry. -/
def GoodBlocks (blocks : List (List Nat)) : Prop :=
  ∀ bl ∈ blocks, ∃ p data, 0 ≤ p ∧ ZipList.encode p data = .ok bl ∧ skipGoodB data = true

theorem indexLoop_blocks (blocks : List (List Nat)) :
    ∀ (rest : List Nat) (k : Nat), GoodBlocks blocks → k < blocks.length →
      ∃ out, ZipList.indexLoop (blocks.flatten ++ rest) k = .ok out := by
  induction blocks with
  | nil =>
    intro rest k hb hk
    simp at hk
  | cons b bs ih =>
    intro rest k hb hk
    obtain ⟨p, data, hp, henc, hsk⟩ := hb b (by simp)
    have hstep := indexStep_entry p hp data b (bs.flatten ++ rest) henc hsk
    rw [List.flatten_cons, List.append_assoc]
    unfold ZipList.indexLoop
    rw [hstep]
    cases k with
    | zero => exact ⟨decodePayload data, rfl⟩
    | succ k2 =>
      refine ih rest k2 (fun bl hbl => hb bl (by simp [hbl])) ?_
      simp at hk
      omega

/-! ### Header layout toolkit -/

theorem header_read0 (a b c : Nat) (rest : List Nat) (ha : a ≤ 4294967295) :
    readU32 (u32le a ++ u32le b ++ u16le c ++ rest) 0 = a := by
  simp [u32le, u16le, readU32]
  omega

theorem header_read4 (a b c : Nat) (rest : List Nat) (hb : b ≤ 4294967295) :
    readU32 (u32le a ++ u32le b ++ u16le c ++ rest) 4 = b := by
  simp [u32le, u16le, readU32]
  omega

theorem header_read8 (a b c : Nat) (rest : List Nat) (hc : c ≤ 65535) :
    readU16 (u32le a ++ u32le b ++ u16le c ++ rest) 8 = c := by
  simp [u32le, u16le, readU16]
  omega

theorem header_drop10 (a b c : Nat) (rest : List Nat) :
    (u32le a ++ u32le b ++ u16le c ++ rest).drop 10 = rest := by
  simp [u32le, u16le]

theorem header_len (a b c : Nat) (rest : List Nat) :
    (u32le a ++ u32le b ++ u16le c ++ rest).length = 10 + rest.length := by
  simp [u32le, u16le]
  omega

theorem header_set0 (a b c a2 : Nat) (rest : List Nat) :
    setBytesAt (u32le a ++ u32le b ++ u16le c ++ rest) 0 (u32le a2) =
      u32le a2 ++ u32le b ++ u16le c ++ rest := by
  simp [u32le, u16le, setBytesAt]

theorem header_set4 (a b c b2 : Nat) (rest : List Nat) :
    setBytesAt (u32le a ++ u32le b ++ u16le c ++ rest) 4 (u32le b2) =
      u32le a ++ u32le b2 ++ u16le c ++ rest := by
  simp [u32le, u16le, setBytesAt]

theorem header_set8 (a b c c2 : Nat) (rest : List Nat) :
    setBytesAt (u32le a ++ u32le b ++ u16le c ++ rest) 8 (u16le c2) =
      u32le a ++ u32le b ++ u16le c2 ++ rest := by
  simp [u32le, u16le, setBytesAt]

theorem tailOffset_le (blocks : List (List Nat)) :
    tailOffset blocks ≤ 10 + blocks.flatten.length := by
  unfold tailOffset
  by_cases hb : blocks = []
  · subst hb
    simp
  · conv_rhs => rw [← List.dropLast_concat_getLast hb]
    simp

theorem tailOffset_concat (blocks : List (List Nat)) (entry : List Nat) :
    tailOffset (blocks ++ [entry]) = 10 + blocks.flatten.length := by
  unfold tailOffset
  rw [List.dropLast_concat]

theorem setBytesAt_len (l : List Nat) (off : Nat) (vs : List Nat)
    (h : off + vs.length ≤ l.length) : (setBytesAt l off vs).length = l.length := by
  simp [setBytesAt]
  omega

theorem getD_setBytesAt_before (l : List Nat) (off : Nat) (vs : List Nat) (i : Nat)
    (h1 : off ≤ l.length) (h2 : i < off) :
    (setBytesAt l off vs).getD i 0 = l.getD i 0 := by
  unfold setBytesAt
  rw [List.getD_append _ _ _ _ (by simp [List.length_take]; omega)]
  rw [List.getD_append _ _ _ _ (by rw [List.length_take]; omega)]
  simp only [List.getD_eq_getElem?_getD]
  rw [List.getElem?_take_of_lt h2]

theorem getD_setBytesAt_inside (l : List Nat) (off : Nat) (vs : List Nat) (i : Nat)
    (h1 : off ≤ l.length) (h2 : i < vs.length) :
    (setBytesAt l off vs).getD (off + i) 0 = vs.getD i 0 := by
  unfold setBytesAt
  have hlt : (List.take off l).length = off := by rw [List.length_take]; omega
  rw [List.getD_append _ _ _ _ (by simp [List.length_take]; omega)]
  rw [List.getD_append_right _ _ _ _ (by omega)]
  rw [hlt, show off + i - off = i by omega]

theorem getD_setBytesAt_after (l : List Nat) (off : Nat) (vs : List Nat) (i : Nat)
    (h1 : off + vs.length ≤ l.length) (h2 : off + vs.length ≤ i) :
    (setBytesAt l off vs).getD i 0 = l.getD i 0 := by
  unfold setBytesAt
  have hlt : (List.take off l).length = off := by rw [List.length_take]; omega
  rw [List.getD_append_right _ _ _ _ (by simp [List.length_take]; omega)]
  simp only [List.length_append, hlt]
  simp only [List.getD_eq_getElem?_getD]
  rw [List.getElem?_drop, show off + vs.length + (i - (off + vs.length)) = i from by omega]

theorem pushStep_len (zl : ZipList) (data : List Nat) (h : 11 ≤ zl.buff.length) :
    zl.buff.length ≤ (pushStep zl data).buff.length ∧ 11 ≤ (pushStep zl data).buff.length := by
  unfold pushStep
  simp only [ZipList.Push]
  cases henc : ZipList.encode ((zl.zlBytes : Int) - (zl.zlTail : Int) - 1) data with
  | error e =>
    exact ⟨le_rfl, h⟩
  | ok entry =>
    simp only [ZipList.setZlBytes, ZipList.setZlTail, ZipList.setZlLen]
    have l1 : (zl.buff.take (zl.buff.length - 1) ++ entry ++ [255]).length =
        zl.buff.length + entry.length := by
      simp [List.length_take]
      omega
    rw [setBytesAt_len _ _ _ (by simp [u16le, setBytesAt, u32le, List.length_take]; omega)]
    rw [setBytesAt_len _ _ _ (by simp [u32le, setBytesAt, List.length_take]; omega)]
    rw [setBytesAt_len _ _ _ (by simp [u32le, List.length_take]; omega)]
    rw [l1]
    constructor <;> omega

theorem foldPush_len_mono (inputs : List (List Nat)) :
    ∀ zl : ZipList, 11 ≤ zl.buff.length →
      zl.buff.length ≤ (inputs.foldl pushStep zl).buff.length := by
  induction inputs with
  | nil =>
    intro zl h
    simp
  | cons d rest ih =>
    intro zl h
    have hstep := pushStep_len zl d h
    calc zl.buff.length ≤ (pushStep zl d).buff.length := hstep.1
      _ ≤ ((d :: rest).foldl pushStep zl).buff.length := by
          rw [List.foldl_cons]
          exact ih (pushStep zl d) hstep.2

theorem ZLayout_len (zl : ZipList) (blocks : List (List Nat)) (P : List Nat → Prop)
    (h : ZLayout zl blocks P) : zl.buff.length = 11 + blocks.flatten.length := by
  obtain ⟨hbuf, _, _⟩ := h
  conv_lhs => rw [hbuf]
  rw [header_len]
  simp
  omega

theorem NewZipList_layout (P : List Nat → Prop) : ZLayout NewZipList [] P := by
  refine ⟨by decide, by decide, ?_⟩
  intro bl hbl
  simp at hbl

theorem pushStep_layout (zl : ZipList) (blocks : List (List Nat)) (P : List Nat → Prop)
    (data : List Nat) (hL : ZLayout zl blocks P) (hP : P data)
    (hsz : (pushStep zl data).buff.length ≤ 4294967295) :
    ∃ blocks2, ZLayout (pushStep zl data) blocks2 P := by
  obtain ⟨hbuf, hlen, hblocks⟩ := hL
  have hTle := tailOffset_le blocks
  have hT10 : 10 ≤ tailOffset blocks := by unfold tailOffset; omega
  have hlel : zl.buff.length = 11 + blocks.flatten.length :=
    ZLayout_len zl blocks P ⟨hbuf, hlen, hblocks⟩
  have hB : zl.zlBytes = zl.buff.length := by
    rw [ZipList.zlBytes]
    conv_lhs => rw [hbuf]
    exact header_read0 _ _ _ _ hlen
  have hT : zl.zlTail = tailOffset blocks := by
    rw [ZipList.zlTail]
    conv_lhs => rw [hbuf]
    exact header_read4 _ _ _ _ (by omega)
  cases henc : ZipList.encode ((zl.buff.length : Int) - (tailOffset blocks : Int) - 1) data with
  | error e =>
    have hps : pushStep zl data = zl := by
      unfold pushStep
      simp only [ZipList.Push, hB, hT, henc]
    rw [hps]
    exact ⟨blocks, hbuf, hlen, hblocks⟩
  | ok entry =>
    have htake : zl.buff.take (zl.buff.length - 1) =
        u32le zl.buff.length ++ u32le (tailOffset blocks) ++
          u16le (blocks.length % 65536) ++ blocks.flatten := by
      conv_lhs => rw [hbuf]
      rw [show u32le zl.buff.length ++ u32le (tailOffset blocks) ++
            u16le (blocks.length % 65536) ++ (blocks.flatten ++ [255]) =
          (u32le zl.buff.length ++ u32le (tailOffset blocks) ++
            u16le (blocks.length % 65536) ++ blocks.flatten) ++ [255] from by simp]
      exact List.take_left' (by simp [u32le, u16le] <;> omega)
    have hB1 : zl.buff.take (zl.buff.length - 1) ++ entry ++ [255] =
        u32le zl.buff.length ++ u32le (tailOffset blocks) ++
          u16le (blocks.length % 65536) ++ (blocks.flatten ++ entry ++ [255]) := by
      rw [htake]
      simp
    have hzl1len : (zl.buff.take (zl.buff.length - 1) ++ entry ++ [255]).length =
        zl.buff.length + entry.length := by
      simp [List.length_take] <;> omega
    have hpslen : (pushStep zl data).buff.length = zl.buff.length + entry.length := by
      unfold pushStep
      simp only [ZipList.Push, hB, hT, henc]
      simp only [ZipList.setZlBytes, ZipList.setZlTail, ZipList.setZlLen]
      rw [setBytesAt_len _ _ _ (by simp [u16le, setBytesAt, u32le, List.length_take] <;> omega)]
      rw [setBytesAt_len _ _ _ (by simp [u32le, setBytesAt, List.length_take] <;> omega)]
      rw [setBytesAt_len _ _ _ (by simp [u32le, List.length_take] <;> omega)]
      exact hzl1len
    have hNew : zl.buff.length + entry.length ≤ 4294967295 := hpslen ▸ hsz
    have hH1len : (u32le zl.buff.length ++ u32le (tailOffset blocks) ++
        u16le (blocks.length % 65536) ++ (blocks.flatten ++ entry ++ [255])).length %
          4294967296 = zl.buff.length + entry.length := by
      rw [header_len]
      simp only [List.length_append, List.length_cons, List.length_nil]
      omega
    have htailval : (((zl.buff.length : Int) - 1) % 4294967296).toNat = zl.buff.length - 1 := by
      omega
    have hps : pushStep zl data = ⟨u32le (zl.buff.length + entry.length) ++
        u32le (zl.buff.length - 1) ++ u16le ((blocks.length + 1) % 65536) ++
        (blocks.flatten ++ entry ++ [255])⟩ := by
      unfold pushStep
      simp only [ZipList.Push, hB, hT, henc]
      simp only [ZipList.setZlBytes, ZipList.setZlTail, ZipList.setZlLen, ZipList.zlLen]
      rw [hB1, hH1len, header_set0, htailval, header_set4,
        header_read8 _ _ _ _ (by omega), header_set8,
        show (blocks.length % 65536 + 1) % 65536 = (blocks.length + 1) % 65536 from by omega]
    rw [hps]
    have q1 : (u32le (zl.buff.length + entry.length) ++ u32le (zl.buff.length - 1) ++
        u16le ((blocks.length + 1) % 65536) ++ (blocks.flatten ++ entry ++ [255])).length =
        zl.buff.length + entry.length := by
      rw [header_len]
      simp only [List.length_append, List.length_cons, List.length_nil]
      omega
    have q2 : tailOffset (blocks ++ [entry]) = zl.buff.length - 1 := by
      rw [tailOffset_concat]
      omega
    have q3 : (blocks ++ [entry]).length % 65536 = (blocks.length + 1) % 65536 := by
      simp
    have q4 : (blocks ++ [entry]).flatten = blocks.flatten ++ entry := by
      simp
    refine ⟨blocks ++ [entry], ?_, ?_, ?_⟩
    · show (u32le (zl.buff.length + entry.length) ++ u32le (zl.buff.length - 1) ++
          u16le ((blocks.length + 1) % 65536) ++ (blocks.flatten ++ entry ++ [255])) =
        u32le ((u32le (zl.buff.length + entry.length) ++ u32le (zl.buff.length - 1) ++
          u16le ((blocks.length + 1) % 65536) ++
            (blocks.flatten ++ entry ++ [255])).length) ++
          u32le (tailOffset (blocks ++ [entry])) ++
          u16le ((blocks ++ [entry]).length % 65536) ++
          ((blocks ++ [entry]).flatten ++ [255])
      rw [q1, q2, q3, q4]
    · show (u32le (zl.buff.length + entry.length) ++ u32le (zl.buff.length - 1) ++
          u16le ((blocks.length + 1) % 65536) ++
            (blocks.flatten ++ entry ++ [255])).length ≤ 4294967295
      rw [q1]
      exact hNew
    · intro bl hbl
      rw [List.mem_append] at hbl
      rcases hbl with hbl | hbl
      · exact hblocks bl hbl
      · simp at hbl
        subst hbl
        exact ⟨(zl.buff.length : Int) - (tailOffset blocks : Int) - 1, data,
          by omega, henc, hP⟩

theorem foldPush_layout (inputs : List (List Nat)) (P : List Nat → Prop) :
    ∀ (zl : ZipList) (blocks : List (List Nat)), ZLayout zl blocks P →
      (∀ d ∈ inputs, P d) → (inputs.foldl pushStep zl).buff.length ≤ 4294967295 →
      ∃ blocks2, ZLayout (inputs.foldl pushStep zl) blocks2 P := by
  induction inputs with
  | nil =>
    intro zl blocks h _ _
    exact ⟨blocks, h⟩
  | cons d rest ih =>
    intro zl blocks h hall hsz
    have h11 : 11 ≤ zl.buff.length := by
      have := ZLayout_len zl blocks P h
      omega
    have hstep := pushStep_len zl d h11
    have hmono := foldPush_len_mono rest (pushStep zl d) hstep.2
    rw [List.foldl_cons] at hsz ⊢
    have hsz2 : (pushStep zl d).buff.length ≤ 4294967295 := le_trans hmono hsz
    obtain ⟨b2, hb2⟩ := pushStep_layout zl blocks P d h (hall d (by simp)) hsz2
    exact ih (pushStep zl d) b2 hb2 (fun d2 hd2 => hall d2 (by simp [hd2])) hsz

theorem buildZL_layout (inputs : List (List Nat)) (P : List Nat → Prop)
    (hall : ∀ d ∈ inputs, P d) (hsz : (buildZL inputs).buff.length ≤ 4294967295) :
    ∃ blocks, ZLayout (buildZL inputs) blocks P :=
  foldPush_layout inputs P NewZipList [] (NewZipList_layout P) hall hsz

theorem readU16_set8 (l : List Nat) (x : Nat) (h8 : 10 ≤ l.length) (hx : x < 65536) :
    readU16 (setBytesAt l 8 (u16le x)) 8 = x := by
  unfold readU16
  have g0 := getD_setBytesAt_inside l 8 (u16le x) 0 (by omega) (by simp [u16le])
  have g1 := getD_setBytesAt_inside l 8 (u16le x) 1 (by omega) (by simp [u16le])
  norm_num at g0 g1
  simp only [List.getD_eq_getElem?_getD]
  norm_num
  rw [g0, g1]
  simp [u16le]
  omega

/-- C5 (amended): each successful `Push` sets the `zllen` header to
`(old zllen + 1) % 65536` — the `uint16` wrap-around of the source, not the
saturating `min (old + 1) 65535` the claim states. -/
theorem c5_zllen (zl : ZipList) (data : List Nat) (zl2 : ZipList)
    (hlen : 11 ≤ zl.buff.length) (h : ZipList.Push zl data = .ok zl2) :
    zl2.zlLen = (zl.zlLen + 1) % 65536 := by
  simp only [ZipList.Push] at h
  split at h
  · exact absurd h (by simp)
  · rename_i entry henc
    injection h with h2
    subst h2
    simp only [ZipList.setZlBytes, ZipList.setZlTail, ZipList.setZlLen, ZipList.zlLen]
    have hB1len : (zl.buff.take (zl.buff.length - 1) ++ entry ++ [255]).length =
        zl.buff.length + entry.length := by
      simp [List.length_take]
      omega
    have h2len : (setBytesAt (zl.buff.take (zl.buff.length - 1) ++ entry ++ [255]) 0
        (u32le ((zl.buff.take (zl.buff.length - 1) ++ entry ++ [255]).length %
          4294967296))).length = zl.buff.length + entry.length := by
      rw [setBytesAt_len _ _ _ (by simp [u32le, List.length_take]; omega)]
      exact hB1len
    have h3len : (setBytesAt (setBytesAt (zl.buff.take (zl.buff.length - 1) ++ entry ++ [255]) 0
        (u32le ((zl.buff.take (zl.buff.length - 1) ++ entry ++ [255]).length % 4294967296))) 4
        (u32le (((zl.zlBytes : Int) - 1) % 4294967296).toNat)).length =
        zl.buff.length + entry.length := by
      rw [setBytesAt_len _ _ _ (by rw [h2len]; simp [u32le]; omega)]
      exact h2len
    rw [readU16_set8 _ _ (by rw [h3len]; omega) (by omega)]
    have gtail : ∀ i, i < 10 →
        (zl.buff.take (zl.buff.length - 1) ++ entry ++ [255]).getD i 0 = zl.buff.getD i 0 := by
      intro i hi
      rw [List.getD_append _ _ _ _ (by simp [List.length_take]; omega)]
      rw [List.getD_append _ _ _ _ (by simp [List.length_take]; omega)]
      simp only [List.getD_eq_getElem?_getD]
      rw [List.getElem?_take_of_lt (by omega)]
    have g8 : ∀ i, 8 ≤ i → i < 10 →
        (setBytesAt (setBytesAt (zl.buff.take (zl.buff.length - 1) ++ entry ++ [255]) 0
          (u32le ((zl.buff.take (zl.buff.length - 1) ++ entry ++ [255]).length % 4294967296))) 4
          (u32le (((zl.zlBytes : Int) - 1) % 4294967296).toNat)).getD i 0 =
        zl.buff.getD i 0 := by
      intro i h8 h10
      rw [getD_setBytesAt_after _ _ _ _ (by rw [h2len]; simp [u32le]; omega)
        (by simp [u32le]; omega)]
      rw [getD_setBytesAt_after _ _ _ _ (by rw [hB1len]; simp [u32le]; omega)
        (by simp [u32le]; omega)]
      exact gtail i h10
    unfold readU16
    rw [g8 8 (by omega) (by omega), g8 (8 + 1) (by omega) (by omega)]

theorem roundGood_skipGood (b : List Nat) (h : roundGoodB b = true) : skipGoodB b = true := by
  unfold roundGoodB at h
  unfold skipGoodB
  cases hm : maybeInt b <;> rw [hm] at h <;> simp_all

theorem decodePayload_roundOut (b : List Nat) (h : roundGoodB b = true) :
    decodePayload b = roundOut b := by
  cases hm : maybeInt b with
  | none => simp [decodePayload, roundOut, hm]
  | some v =>
    simp only [roundGoodB, hm, Bool.and_eq_true, bne_iff_ne, ne_eq, Bool.not_eq_true', Bool.not_eq_true,
      Bool.and_eq_false_iff, decide_eq_false_iff_not, decide_eq_true_eq] at h
    have h2 : ¬(-128 ≤ v ∧ v ≤ -1) := by tauto
    simp [decodePayload, roundOut, hm, h2]

theorem encode_ok_of_roundGood (p : Int) (b : List Nat) (h : roundGoodB b = true) :
    ∃ entry, ZipList.encode p b = .ok entry := by
  unfold ZipList.encode
  cases hm : maybeInt b
  · simp only [hm]
    simp only [roundGoodB, hm, Bool.or_eq_true, Bool.and_eq_true, decide_eq_true_eq] at h
    split_ifs with g1 g2 g3
    · exact ⟨_, rfl⟩
    · exact ⟨_, rfl⟩
    · exact ⟨_, rfl⟩
    · omega
  · simp only [hm]
    split_ifs <;> exact ⟨_, rfl⟩

theorem push_fresh (b entry : List Nat) (henc : ZipList.encode 0 b = .ok entry) :
    ZipList.Push NewZipList b =
      .ok ⟨u32le ((11 + entry.length) % 4294967296) ++ u32le 10 ++ u16le 1 ++
        (entry ++ [255])⟩ := by
  have hB : NewZipList.zlBytes = 11 := by decide
  have hT : NewZipList.zlTail = 10 := by decide
  simp only [ZipList.Push, hB, hT]
  rw [show ((11 : Nat) : Int) - ((10 : Nat) : Int) - 1 = 0 from by norm_num]
  rw [henc]
  simp only [ZipList.setZlBytes, ZipList.setZlTail, ZipList.setZlLen, ZipList.zlLen]
  have htake : NewZipList.buff.take (NewZipList.buff.length - 1) ++ entry ++ [255] =
      u32le 11 ++ u32le 10 ++ u16le 0 ++ (entry ++ [255]) := by
    rw [show NewZipList.buff.take (NewZipList.buff.length - 1) =
        u32le 11 ++ u32le 10 ++ u16le 0 from by decide]
    simp
  rw [htake]
  have hlen : (u32le 11 ++ u32le 10 ++ u16le 0 ++ (entry ++ [255])).length =
      11 + entry.length := by
    rw [header_len]
    simp
    omega
  rw [hlen]
  have h10 : (((11 : Nat) : Int) - 1) % 4294967296 = (10 : Int) := by decide
  rw [h10, show ((10 : Int)).toNat = (10 : Nat) from rfl]
  rw [header_set0, header_set4, header_read8 _ _ _ _ (by norm_num)]
  rw [show (0 + 1) % 65536 = 1 from rfl]
  rw [header_set8]

/-- C1 (amended): on a fresh ziplist, for inputs whose entry the decoder
reads back faithfully (`roundGoodB`: integers other than 0 and outside
[-128,-1], byte strings of length at most 15 or between 63 and 2^32-1),
`Push b` succeeds and `Index 0` returns the round-trip value `roundOut b`
(canonical decimal ASCII for integers, `b` verbatim otherwise). -/
theorem c1_roundtrip (b : List Nat) (h : roundGoodB b = true) :
    ∃ zl, ZipList.Push NewZipList b = .ok zl ∧ zl.Index 0 = IdxOut.ok (roundOut b) := by
  obtain ⟨entry, henc⟩ := encode_ok_of_roundGood 0 b h
  refine ⟨_, push_fresh b entry henc, ?_⟩
  have hzlLen : ZipList.zlLen ⟨u32le ((11 + entry.length) % 4294967296) ++ u32le 10 ++
      u16le 1 ++ (entry ++ [255])⟩ = 1 := by
    rw [ZipList.zlLen]
    exact header_read8 _ _ _ _ (by omega)
  rw [ZipList.Index, if_neg (by rw [hzlLen]; norm_num)]
  show ZipList.indexLoop ((u32le ((11 + entry.length) % 4294967296) ++ u32le 10 ++
      u16le 1 ++ (entry ++ [255])).drop 10) (Int.toNat 0) = IdxOut.ok (roundOut b)
  rw [header_drop10]
  show ZipList.indexLoop (entry ++ [255]) 0 = IdxOut.ok (roundOut b)
  unfold ZipList.indexLoop
  rw [indexStep_entry 0 (by norm_num) b entry [255] henc (roundGood_skipGood b h)]
  rw [decodePayload_roundOut b h]

/-- C4: structural invariant preserved by every `Push` from `NewZipList`
(stated for sequences whose final buffer stays within the `uint32` header
range): the `zlbytes` header equals the buffer length, the last byte is the
terminator 255, and `zltail` is the byte offset of the previous-length byte
of the last entry (offset of the terminator, 10, when the list is empty,
since `tailOffset [] = 10`). -/
theorem c4_push_invariants (inputs : List (List Nat))
    (hsz : (buildZL inputs).buff.length ≤ 4294967295) :
    (buildZL inputs).zlBytes = (buildZL inputs).buff.length ∧
    (buildZL inputs).buff.getLast? = some 255 ∧
    ∃ blocks, ZLayout (buildZL inputs) blocks (fun _ => True) ∧
      (buildZL inputs).zlTail = tailOffset blocks := by
  obtain ⟨blocks, hL⟩ := buildZL_layout inputs (fun _ => True) (fun _ _ => trivial) hsz
  obtain ⟨hbuf, hlen, hblocks⟩ := hL
  have hlel := ZLayout_len _ _ _ ⟨hbuf, hlen, hblocks⟩
  have hTle := tailOffset_le blocks
  refine ⟨?_, ?_, blocks, ⟨hbuf, hlen, hblocks⟩, ?_⟩
  · rw [ZipList.zlBytes]
    conv_lhs => rw [hbuf]
    exact header_read0 _ _ _ _ hlen
  · conv_lhs => rw [hbuf]
    rw [show u32le (buildZL inputs).buff.length ++ u32le (tailOffset blocks) ++
          u16le (blocks.length % 65536) ++ (blocks.flatten ++ [255]) =
        (u32le (buildZL inputs).buff.length ++ u32le (tailOffset blocks) ++
          u16le (blocks.length % 65536) ++ blocks.flatten) ++ [255] from by simp]
    exact List.getLast?_concat _
  · rw [ZipList.zlTail]
    conv_lhs => rw [hbuf]
    exact header_read4 _ _ _ _ (by omega)

/-- C3: for ziplists reachable by successful pushes of inputs whose entries
the scan can walk (`skipGoodB`), and in-range `i`, `Index i` returns an
entry: no error, no panic, no silent no-entry outcome. -/
theorem c3_index_total (inputs : List (List Nat)) (hg : ∀ d ∈ inputs, skipGoodB d = true)
    (hsz : (buildZL inputs).buff.length ≤ 4294967295) (i : Int) (h0 : 0 ≤ i)
    (hi : i < ((buildZL inputs).Len : Int)) :
    ∃ bs, (buildZL inputs).Index i = IdxOut.ok bs := by
  obtain ⟨blocks, hbuf, hlen, hblocks⟩ :=
    buildZL_layout inputs (fun d => skipGoodB d = true) hg hsz
  have hzlLen : (buildZL inputs).zlLen = blocks.length % 65536 := by
    rw [ZipList.zlLen]
    conv_lhs => rw [hbuf]
    exact header_read8 _ _ _ _ (by omega)
  have hdrop : (buildZL inputs).buff.drop 10 = blocks.flatten ++ [255] := by
    conv_lhs => rw [hbuf]
    exact header_drop10 _ _ _ _
  rw [ZipList.Index, if_neg (by rw [hzlLen]; rw [ZipList.Len, hzlLen] at hi; omega), hdrop]
  refine indexLoop_blocks blocks [255] i.toNat hblocks ?_
  rw [ZipList.Len, hzlLen] at hi
  omega

def stepOOR (x : Except IdxOut (IdxOut × List Nat)) : Bool :=
  match x with
  | .error r => decide (r = IdxOut.errOutOfRange)
  | .ok tn => decide (tn.1 = IdxOut.errOutOfRange)

theorem stepOOR_ok (t : IdxOut) (n : List Nat) (h : t ≠ IdxOut.errOutOfRange) :
    stepOOR (.ok (t, n)) = false := by
  simp [stepOOR, h]

theorem stepOOR_ite (c : Prop) [Decidable c] (x y : Except IdxOut (IdxOut × List Nat))
    (hx : stepOOR x = false) (hy : stepOOR y = false) :
    stepOOR (if c then x else y) = false := by
  split
  · exact hx
  · exact hy

theorem stepOOR_afterPrev (rem1 : List Nat) : stepOOR (ZipList.indexAfterPrev rem1) = false := by
  cases h0 : rem1[0]? with
  | none =>
    simp only [ZipList.indexAfterPrev, h0]
    rfl
  | some reqLen =>
    simp only [ZipList.indexAfterPrev, h0]
    apply stepOOR_ite
    · exact stepOOR_ok _ _ (by split <;> simp)
    apply stepOOR_ite
    · exact stepOOR_ok _ _ (by split <;> simp)
    apply stepOOR_ite
    · exact stepOOR_ok _ _ (by simp)
    apply stepOOR_ite
    · exact stepOOR_ok _ _ (by split <;> simp)
    apply stepOOR_ite
    · exact stepOOR_ok _ _ (by split <;> simp)
    apply stepOOR_ite
    · exact stepOOR_ok _ _ (by split <;> simp)
    apply stepOOR_ite
    · exact stepOOR_ok _ _ (by split <;> simp)
    apply stepOOR_ite
    · cases rem1[1]? with
      | none => rfl
      | some lo => exact stepOOR_ok _ _ (by split <;> simp)
    apply stepOOR_ite
    · cases rem1[1]? with
      | none => rfl
      | some b1 =>
        cases rem1[2]? with
        | none => rfl
        | some b2 =>
          cases rem1[3]? with
          | none => rfl
          | some b3 =>
            cases rem1[4]? with
            | none => rfl
            | some b4 => exact stepOOR_ok _ _ (by split <;> simp)
    rfl

theorem stepOOR_indexStep (rem : List Nat) : stepOOR (ZipList.indexStep rem) = false := by
  cases hp : rem[0]? with
  | none =>
    simp only [ZipList.indexStep, hp]
    rfl
  | some p0 =>
    simp only [ZipList.indexStep, hp]
    split_ifs <;> apply stepOOR_afterPrev

theorem indexLoop_ne_oor (k : Nat) : ∀ rem, ZipList.indexLoop rem k ≠ IdxOut.errOutOfRange := by
  induction k with
  | zero =>
    intro rem
    have h := stepOOR_indexStep rem
    unfold ZipList.indexLoop
    cases hs : ZipList.indexStep rem with
    | error r =>
      rw [hs] at h
      simp only [stepOOR, decide_eq_false_iff_not] at h
      simpa using h
    | ok tn =>
      rw [hs] at h
      simp only [stepOOR, decide_eq_false_iff_not] at h
      simpa using h
  | succ k2 ih =>
    intro rem
    have h := stepOOR_indexStep rem
    unfold ZipList.indexLoop
    cases hs : ZipList.indexStep rem with
    | error r =>
      rw [hs] at h
      simp only [stepOOR, decide_eq_false_iff_not] at h
      simpa using h
    | ok tn =>
      simp only [hs]
      exact ih tn.2

theorem encode_error_iff (p : Int) (data : List Nat) :
    ZipList.encode p data = .error () ↔ maybeInt data = none ∧ 4294967295 < data.length := by
  cases hm : maybeInt data with
  | some v =>
    simp only [ZipList.encode, hm]
    split_ifs <;> simp
  | none =>
    simp only [ZipList.encode, hm]
    split_ifs with g1 g2 g3 <;> simp <;> omega

theorem push_error_iff (zl : ZipList) (data : List Nat) :
    ZipList.Push zl data = .error () ↔ maybeInt data = none ∧ 4294967295 < data.length := by
  have h := encode_error_iff ((zl.zlBytes : Int) - (zl.zlTail : Int) - 1) data
  simp only [ZipList.Push]
  cases he : ZipList.encode ((zl.zlBytes : Int) - (zl.zlTail : Int) - 1) data with
  | error e =>
    cases e
    rw [he] at h
    exact ⟨fun _ => h.mp rfl, fun _ => rfl⟩
  | ok entry =>
    rw [he] at h
    constructor
    · intro hcontra
      simp at hcontra
    · intro hrhs
      have h2 := h.mpr hrhs
      simp at h2

theorem index_oor_iff (zl : ZipList) (i : Int) :
    zl.Index i = IdxOut.errOutOfRange ↔ i < 0 ∨ (zl.zlLen : Int) ≤ i := by
  unfold ZipList.Index
  split_ifs with hg
  · exact iff_of_true rfl hg
  · exact iff_of_false (indexLoop_ne_oor _ _) hg

theorem existsFold (d : List (String × Entity)) (keys : List String) (acc : Int) :
    List.foldl (fun result key => if (dictGet d key).isSome then result + 1 else result) acc keys =
      acc + (keys.countP (fun k => (dictGet d k).isSome) : Nat) := by
  induction keys generalizing acc with
  | nil => simp
  | cons k ks ih =>
    simp only [List.foldl_cons, List.countP_cons]
    by_cases h : (dictGet d k).isSome
    · rw [if_pos h, ih]
      simp only [h, if_true]
      push_cast
      ring
    · rw [if_neg h, ih]
      simp [h]

/-- C7 (amended): `DB.Exists` counts the given keys present in the
dictionary, with no expiration check — the TTL index plays no part. -/
theorem c7_exists_count (db : DB) (keys : List String) :
    DB.Exists db keys = (keys.countP (fun k => (dictGet db.data k).isSome) : Nat) := by
  unfold DB.Exists
  rw [existsFold]
  simp

theorem find_filter_ne {α : Type} (l : List (String × α)) (k : String) :
    (l.filter (fun p => !(p.1 == k))).find? (fun p => p.1 == k) = none := by
  induction l with
  | nil => rfl
  | cons a l ih =>
    by_cases h : (a.1 == k) = true
    · simpa [List.filter_cons, h] using ih
    · simpa [List.filter_cons, h, List.find?_cons] using ih

theorem dictGet_remove (d : List (String × Entity)) (k : String) :
    dictGet (dictRemove d k).2 k = none := by
  unfold dictRemove
  split_ifs with h
  · unfold dictGet
    rw [find_filter_ne]
    rfl
  · rcases hdg : dictGet d k with _ | v
    · rfl
    · simp [hdg] at h

/-- C8 (amended): after `Remove k` the dictionary lookup reports the key
absent; the TTL entry is removed only when the key was present in the
dictionary (`result > 0` in the source). -/
theorem c8_remove_ttl (db : DB) (k : String) (now : Int) :
    dictGet (DB.Remove db k).2.data k = none ∧
    ((dictGet db.data k).isSome = true →
      (DB.IsExpiredV1 (DB.Remove db k).2 now k).2 = false) := by
  constructor
  · have hd := dictGet_remove db.data k
    simp only [DB.Remove]
    split_ifs <;> exact hd
  · intro h
    simp only [DB.Remove]
    have h1 : 0 < (dictRemove db.data k).1 := by
      unfold dictRemove
      rw [if_pos h]
      norm_num
    rw [if_pos h1]
    unfold DB.IsExpiredV1 ttlIsExpired
    have h2 : (ttlRemove db.ttlCache k).find? (fun p => p.1 == k) = none := find_filter_ne _ _
    rw [h2]

/-- C9 (amended): `Flush` empties both the dictionary and the TTL index,
provided the dictionary was nonempty (the source returns without clearing
when `data.Len() = 0`, even if the TTL index is nonempty). -/
theorem c9_flush_clear (db : DB) (h : 0 < dictLen db.data) :
    ∀ (k : String) (now : Int),
      dictGet (DB.Flush db).data k = none ∧ ((DB.Flush db).IsExpiredV1 now k).2 = false := by
  intro k now
  unfold DB.Flush
  rw [if_pos h]
  exact ⟨rfl, rfl⟩

/-- C10: on a context in the post-`Reset` state (empty `cmdName`, empty
`cmdLine`, nil `args`), `GetCmdName` returns the empty string, while
`GetArgs` and `GetArgNum` hit the panicking Go slice `cmdLine[1:]`
(modelled as `none`) instead of returning an empty argument list. -/
theorem c10_cmdctx_empty (c : CommandContext) (h1 : c.cmdName = []) (h2 : c.cmdLine = [])
    (h3 : c.args = none) :
    c.GetCmdName = [] ∧ c.GetArgs = none ∧ c.GetArgNum = none := by
  refine ⟨?_, ?_, ?_⟩
  · simp [CommandContext.GetCmdName, h1, h2]
  · simp [CommandContext.GetArgs, h2, h3]
  · simp [CommandContext.GetArgNum, CommandContext.GetArgs, h2, h3]

/-- C6 (amended): the failure modes without the sentinel clause — `Push`
fails (with the too-large error) exactly when the input is a byte-string
payload longer than 2^32-1, and `Index` returns the out-of-range error
exactly when `i < 0` or `i ≥ zllen`; `zllen` is a plain bound, never a
"scan past" sentinel. -/
theorem c6_failure_modes :
    (∀ (zl : ZipList) (data : List Nat),
      ZipList.Push zl data = .error () ↔ maybeInt data = none ∧ 4294967295 < data.length) ∧
    (∀ (zl : ZipList) (i : Int),
      zl.Index i = IdxOut.errOutOfRange ↔ i < 0 ∨ (zl.zlLen : Int) ≤ i) :=
  ⟨push_error_iff, index_oor_iff⟩

set_option maxRecDepth 40000 in
/-- C1 counterexample: the integer input "0" is embed-encoded as the single
byte 0xF0, which collides with the int24 tag, so `Index 0` panics (reads
past the buffer) instead of returning the canonical decimal "0". -/
theorem c1_roundtrip_counterexample :
    (ZipList.Push NewZipList [48]).toOption = some ⟨[13,0,0,0,10,0,0,0,1,0,0,240,255]⟩ ∧
    ZipList.Index ⟨[13,0,0,0,10,0,0,0,1,0,0,240,255]⟩ 0 = IdxOut.panic ∧
    IdxOut.panic ≠ IdxOut.ok (intDecimal 0) := by decide

set_option maxRecDepth 40000 in
/-- C1 witness: the 5-byte string "hello" round-trips through a fresh
ziplist. -/
theorem c1_roundtrip_witness :
    roundGoodB [104,101,108,108,111] = true ∧
    ∃ zl, ZipList.Push NewZipList [104,101,108,108,111] = .ok zl ∧
      zl.Index 0 = IdxOut.ok (roundOut [104,101,108,108,111]) :=
  ⟨by decide, c1_roundtrip [104,101,108,108,111] (by decide)⟩

set_option maxRecDepth 100000 in
/-- C2 counterexample: after the six pushes of the claim, the first
encoding byte (offset 11, after the prevlen byte at offset 10) is 0xF0,
not the claimed 0xF1, and `Index 0` returns "195586" (the 0xF0 byte is
parsed as an int24 tag swallowing the next three bytes), not "0". -/
theorem c2_encoding_counterexample :
    (buildZL [[48],[49,50],[49,51],[49,50,55],[49,50,56],[104,101,108,108,111]]).buff.getD 11 0
      = 240 ∧
    ZipList.Index (buildZL [[48],[49,50],[49,51],[49,50,55],[49,50,56],[104,101,108,108,111]]) 0
      = IdxOut.ok [49,57,53,53,56,54] ∧
    IdxOut.ok [49,57,53,53,56,54] ≠ IdxOut.ok [48] := by decide

set_option maxRecDepth 100000 in
/-- C2 (amended): the actual buffer after the six pushes — entry tags 0xF0,
0xFC, 0xFE 0x0D, 0xFE 0x7F, 0xC0 0x00 0x80, 0x05 "hello" — and the actual
`Index` results: 0 and 1 misparse to "195586" and the raw bytes
[192,0,128], 2 returns "hello" through a desynchronised scan, and 3..5
panic. -/
theorem c2_encoding :
    (buildZL [[48],[49,50],[49,51],[49,50,55],[49,50,56],[104,101,108,108,111]]).buff =
      [32,0,0,0, 24,0,0,0, 6,0, 0,240, 2,252, 2,254,13, 3,254,127, 3,192,0,128,
        4,5,104,101,108,108,111, 255] ∧
    ZipList.Index (buildZL [[48],[49,50],[49,51],[49,50,55],[49,50,56],[104,101,108,108,111]]) 0 =
      IdxOut.ok [49,57,53,53,56,54] ∧
    ZipList.Index (buildZL [[48],[49,50],[49,51],[49,50,55],[49,50,56],[104,101,108,108,111]]) 1 =
      IdxOut.ok [192,0,128] ∧
    ZipList.Index (buildZL [[48],[49,50],[49,51],[49,50,55],[49,50,56],[104,101,108,108,111]]) 2 =
      IdxOut.ok [104,101,108,108,111] ∧
    ZipList.Index (buildZL [[48],[49,50],[49,51],[49,50,55],[49,50,56],[104,101,108,108,111]]) 3 =
      IdxOut.panic ∧
    ZipList.Index (buildZL [[48],[49,50],[49,51],[49,50,55],[49,50,56],[104,101,108,108,111]]) 4 =
      IdxOut.panic ∧
    ZipList.Index (buildZL [[48],[49,50],[49,51],[49,50,55],[49,50,56],[104,101,108,108,111]]) 5 =
      IdxOut.panic := by decide

set_option maxRecDepth 40000 in
/-- C3 counterexample: a 16-byte string is encoded with a 1-byte length the
decoder cannot read back (the decoder handles 1-byte string lengths only up
to 15), so with `Len = 1` the scan falls off every branch and `Index 0`
returns the no-entry/no-error outcome. -/
theorem c3_index_total_counterexample :
    (buildZL [List.replicate 16 97]).Len = 1 ∧
    ZipList.Index (buildZL [List.replicate 16 97]) 0 = IdxOut.noEntry := by decide

set_option maxRecDepth 40000 in
/-- C3 witness: pushing "1" and indexing position 0. -/
theorem c3_index_total_witness :
    (∀ d ∈ [[49]], skipGoodB d = true) ∧
    ∃ bs, (buildZL [[49]]).Index 0 = IdxOut.ok bs :=
  ⟨by decide, c3_index_total [[49]] (by decide) (by decide) 0 (by decide) (by decide)⟩

set_option maxRecDepth 40000 in
/-- C4 witness: the invariants after pushing "1". -/
theorem c4_push_invariants_witness :
    (buildZL [[49]]).buff.length ≤ 4294967295 ∧
    ((buildZL [[49]]).zlBytes = (buildZL [[49]]).buff.length ∧
     (buildZL [[49]]).buff.getLast? = some 255 ∧
     ∃ blocks, ZLayout (buildZL [[49]]) blocks (fun _ => True) ∧
       (buildZL [[49]]).zlTail = tailOffset blocks) :=
  ⟨by decide, c4_push_invariants [[49]] (by decide)⟩

set_option maxRecDepth 40000 in
/-- C5 counterexample: with the `zllen` field at 65535, a successful push
stores `(65535 + 1) % 65536 = 0`, wrapping instead of saturating at the
claimed sentinel 65535. -/
theorem c5_zllen_counterexample :
    (ZipList.Push ⟨[11,0,0,0,10,0,0,0,255,255,255]⟩ [49]).toOption =
      some ⟨[13,0,0,0,10,0,0,0,0,0,0,241,255]⟩ ∧
    ZipList.zlLen ⟨[13,0,0,0,10,0,0,0,0,0,0,241,255]⟩ = 0 ∧
    min (ZipList.zlLen ⟨[11,0,0,0,10,0,0,0,255,255,255]⟩ + 1) 65535 = 65535 := by decide

set_option maxRecDepth 40000 in
/-- C5 witness: pushing "1" onto a fresh ziplist increments `zllen` from 0
to 1. -/
theorem c5_zllen_witness :
    11 ≤ NewZipList.buff.length ∧
    ZipList.zlLen ⟨[13,0,0,0,10,0,0,0,1,0,0,241,255]⟩ = (NewZipList.zlLen + 1) % 65536 :=
  ⟨by decide, c5_zllen NewZipList [49] ⟨[13,0,0,0,10,0,0,0,1,0,0,241,255]⟩ (by decide) (by rfl)⟩

set_option maxRecDepth 40000 in
/-- C6 counterexample: with `zllen` holding 65535 over an empty entry area,
`Index 0` does not scan to the terminator and fail gracefully — it reads
past the buffer (a panic in the Go source). -/
theorem c6_failure_modes_counterexample :
    ZipList.zlLen ⟨[11,0,0,0,10,0,0,0,255,255,255]⟩ = 65535 ∧
    ZipList.Index ⟨[11,0,0,0,10,0,0,0,255,255,255]⟩ 0 = IdxOut.panic := by decide

/-- C7 counterexample: a key whose TTL deadline has passed still counts —
`Exists` consults only the dictionary, never the TTL index. -/
theorem c7_exists_counterexample :
    DB.Exists ⟨[("k", 0)], [("k", 0)]⟩ ["k"] ≠ specLiveCount ⟨[("k", 0)], [("k", 0)]⟩ 5 ["k"] := by
  decide

/-- C8 counterexample: removing a key absent from the dictionary but
present in the TTL index leaves its TTL entry behind (`result > 0` guards
the TTL removal), so `IsExpired` still reports the key as existing. -/
theorem c8_remove_counterexample :
    ((DB.Remove ⟨[], [("k", 0)]⟩ "k").2.IsExpiredV1 0 "k").2 ≠ false := by decide

/-- C9 counterexample: with an empty dictionary and a nonempty TTL index,
`Flush` is a no-op (the source only clears when `data.Len() > 0`), so the
TTL index survives. -/
theorem c9_flush_counterexample :
    ((DB.Flush ⟨[], [("k", 0)]⟩).IsExpiredV1 0 "k").2 ≠ false := by decide

/-- C9 witness: flushing a database with one key and one TTL entry clears
both. -/
theorem c9_flush_witness :
    dictGet (DB.Flush ⟨[("k", 0)], [("k", 5)]⟩).data "k" = none ∧
    ((DB.Flush ⟨[("k", 0)], [("k", 5)]⟩).IsExpiredV1 0 "k").2 = false :=
  c9_flush_clear ⟨[("k", 0)], [("k", 5)]⟩ (by decide) "k" 0

/-- C10 witness: the reset context itself. -/
theorem c10_cmdctx_witness :
    CommandContext.GetCmdName ⟨[], [], none⟩ = [] ∧
    CommandContext.GetArgs ⟨[], [], none⟩ = none ∧
    CommandContext.GetArgNum ⟨[], [], none⟩ = none :=
  c10_cmdctx_empty ⟨[], [], none⟩ rfl rfl rfl
